import Mathlib

/-!
Verification of the W-Chat repository against its natural-language
specification.

The repository ships two browser-side scripts (src/script.js and the
unnamed variant src/unnamed/part_000), which are embedded directly below.
The server component described by the specification (Connection Registry,
Identity Resolver, Signaling Router, Chat Router) is documented in the
repository README but its source is not present; those components are
modelled from the specification text, as marked on each definition.
-/

namespace WChat

/-! ### Client-side model: the DOM facts that src/script.js observes -/

/-- Presence of the four elements that the scripts look up by id. -/
structure Doc where
  localVideo : Bool
  micButton : Bool
  videoButton : Bool
  endCallButton : Bool
deriving DecidableEq

/-- A JavaScript value as far as the scripts use one: an element handle or null. -/
inductive JsValue where
  | nullv : JsValue
  | elemv (id : String) : JsValue
deriving DecidableEq

/-- Errors a script evaluation can throw. -/
inductive JsError where
  | typeError : JsError
deriving DecidableEq

/-- document.getElementById: the element handle when present, null otherwise. -/
def getElementById (d : Doc) (i : String) : JsValue :=
  let present :=
    if i = "localVideo" then d.localVideo
    else if i = "micButton" then d.micButton
    else if i = "videoButton" then d.videoButton
    else if i = "endCallButton" then d.endCallButton
    else false
  if present then .elemv i else .nullv

/-- JavaScript truthiness of the values above: null is falsy, an element is truthy. -/
def truthy : JsValue → Bool
  | .nullv => false
  | .elemv _ => true

/-- element.addEventListener: throws a TypeError when the receiver is null,
otherwise records the (element id, handler) registration. -/
def addEventListener (v : JsValue) (handler : String) :
    Except JsError (List (String × String)) :=
  match v with
  | .nullv => .error .typeError
  | .elemv i => .ok [(i, handler)]

/-- Top-level evaluation of src/script.js, line by line: the localVideo
lookup (stored, no method call), the getUserMedia promise chain (registers
callbacks, throws nothing synchronously), then each button lookup guarded by
an if-null check before addEventListener. -/
def scriptJsTopLevel (doc : Doc) : Except JsError (List (String × String)) := do
  let _localVideo := getElementById doc "localVideo"
  let micButton := getElementById doc "micButton"
  let r1 ← if truthy micButton then addEventListener micButton "toggleMic" else pure []
  let videoButton := getElementById doc "videoButton"
  let r2 ← if truthy videoButton then addEventListener videoButton "toggleVideo" else pure []
  let endCallButton := getElementById doc "endCallButton"
  let r3 ← if truthy endCallButton then addEventListener endCallButton "endCall" else pure []
  return r1 ++ r2 ++ r3

/-- One media track, as far as the commented-out toggle code would touch it. -/
structure MediaTrack where
  enabled : Bool
deriving DecidableEq

/-- A media stream: its audio and video tracks. -/
structure MediaStream where
  audioTracks : List MediaTrack
  videoTracks : List MediaTrack
deriving DecidableEq

/-- The mutable state both scripts can reach: the localStream variable and
the srcObject property of the localVideo element. -/
structure ClientState where
  localStream : Option MediaStream
  srcObject : Option MediaStream
deriving DecidableEq

/-- State right after the declarations at the top of either script:
localStream is undefined and no srcObject has been assigned. -/
def initialClientState : ClientState := ⟨none, none⟩

/-- Observable side effects the handlers produce. -/
inductive Effect where
  | consoleLog (msg : String)
  | consoleError (msg : String)
  | alertMsg (msg : String)
deriving DecidableEq

/-- toggleMic from src/script.js: the track mutation is commented out; the
body only logs. -/
def toggleMic (s : ClientState) : ClientState × List Effect :=
  (s, [.consoleLog "Mic toggle not fully implemented in this basic example."])

/-- toggleVideo from src/script.js: the track mutation is commented out; the
body only logs. -/
def toggleVideo (s : ClientState) : ClientState × List Effect :=
  (s, [.consoleLog "Video toggle not fully implemented in this basic example."])

/-- endCall from src/script.js: the body only logs. -/
def endCall (s : ClientState) : ClientState × List Effect :=
  (s, [.consoleLog "End call not fully implemented in this basic example."])

/-- toggleMic from src/unnamed/part_000: the body only raises an alert. -/
def toggleMicVariant (s : ClientState) : ClientState × List Effect :=
  (s, [.alertMsg "Mic toggle not fully implemented in this basic example."])

/-- toggleVideo from src/unnamed/part_000: the body only raises an alert. -/
def toggleVideoVariant (s : ClientState) : ClientState × List Effect :=
  (s, [.alertMsg "Video toggle not fully implemented in this basic example."])

/-- endCall from src/unnamed/part_000: the body only raises an alert. -/
def endCallVariant (s : ClientState) : ClientState × List Effect :=
  (s, [.alertMsg "End call not fully implemented in this basic example."])

/-- Resolution of the getUserMedia promise in either script. On fulfilment
the then-handler assigns localStream and then localVideo.srcObject (which
throws if localVideo is null). On rejection the catch-handler logs the error
and nothing else; no exception escapes. -/
def mediaPromiseResolve (doc : Doc) (s : ClientState)
    (outcome : Except String MediaStream) :
    Except JsError (ClientState × List Effect) :=
  match outcome with
  | .ok stream =>
      let s1 := { s with localStream := some stream }
      if doc.localVideo then
        .ok ({ s1 with srcObject := some stream }, [])
      else
        .error .typeError
  | .error _ =>
      .ok (s, [.consoleError "Error accessing media devices:"])

/-! ### Server model, reconstructed from the specification text -/

/-- Modelled from the spec: decimal digit printing used by the Identity
Resolver's numeric suffixes (name-2, name-3, ...). Little-endian digit list
of n, driven by explicit fuel so that it is structurally recursive. -/
def decimalDigitsAux : Nat → Nat → List Nat
  | 0, _ => []
  | fuel + 1, n => if n = 0 then [] else n % 10 :: decimalDigitsAux fuel (n / 10)

/-- Modelled from the spec: the usual decimal string of a natural number. -/
def decimalRepr (n : Nat) : String :=
  if n = 0 then "0"
  else String.mk (((decimalDigitsAux n n).reverse).map Nat.digitChar)

/-- Modelled from the spec: the name obtained by appending numeric suffix k,
so nameWithSuffix "sam" 2 is the string sam-2. -/
def nameWithSuffix (base : String) (k : Nat) : String :=
  base ++ "-" ++ decimalRepr k

/-- Modelled from the spec (Identity Resolver, 4.2): the suffix search. It
tries suffixes k, k+1, ... in order and returns the first name not in the
taken set; the fuel bounds the search, and the correctness lemmas show the
fuel used by claim is never exhausted. -/
def claimAux (taken : List String) (base : String) : Nat → Nat → String
  | 0, k => nameWithSuffix base k
  | fuel + 1, k =>
      let n := nameWithSuffix base k
      if n ∈ taken then claimAux taken base fuel (k + 1) else n

/-- Modelled from the spec (Identity Resolver, 4.2): claim grants an unused
candidate name unchanged, and otherwise appends the smallest numeric suffix
starting from 2 that yields an unused name. It is a pure function of the
candidate and the current name set. -/
def claim (taken : List String) (candidateName : String) : String :=
  if candidateName ∈ taken then claimAux taken candidateName (taken.length + 1) 2
  else candidateName

/-- Modelled from the spec (3, Data Model): one live Session record. The
transport handle is represented by the id it would deliver to. -/
structure Session where
  id : Nat
  username : String
  roomId : String
deriving DecidableEq

/-- Negotiation phases of the signaling state machine (4.3). -/
inductive NegState where
  | Idle
  | OfferSent
  | AnswerSent
  | Connected
  | Failed
deriving DecidableEq

/-- Modelled from the spec (4.3): per ordered pair (A, B) the phase plus the
count of ICE candidates relayed in each direction during the exchange. -/
structure NegoEntry where
  st : NegState
  candAB : Nat
  candBA : Nat
deriving DecidableEq

/-- Modelled from the spec (2, 3): the Connection Registry state. Room
membership is derived from each Session's roomId; the negotiation table maps
ordered pair keys to their entry. -/
structure ServerState where
  sessions : List Session
  nego : List ((Nat × Nat) × NegoEntry)
deriving DecidableEq

/-- The empty registry, before any client joins. -/
def emptyServer : ServerState := ⟨[], []⟩

/-- Modelled from the spec (4.1): lookupByUsername. -/
def lookupByUsername (st : ServerState) (name : String) : Option Session :=
  st.sessions.find? (fun s => s.username = name)

/-- Modelled from the spec (4.1): lookupById. -/
def lookupById (st : ServerState) (i : Nat) : Option Session :=
  st.sessions.find? (fun s => s.id = i)

/-- Modelled from the spec (4.1): listRoomMembers, derived from Session
roomId fields so membership always reflects Registry truth. -/
def listRoomMembers (st : ServerState) (r : String) : List Session :=
  st.sessions.filter (fun s => s.roomId = r)

/-- Modelled from the spec (4.2, 4.5): admitting a joining client. An empty
or whitespace-only candidate is rejected (InvalidNameError) and a duplicate
id is rejected (DuplicateIdError); otherwise the Identity Resolver grants a
conflict-free name and the Session enters the Registry. -/
def join (st : ServerState) (i : Nat) (candidateName roomId : String) : ServerState :=
  if candidateName.trim = "" then st
  else if st.sessions.any (fun s => s.id = i) then st
  else
    let finalName := claim (st.sessions.map Session.username) candidateName
    { st with sessions := ⟨i, finalName, roomId⟩ :: st.sessions }

/-- A sequence of join operations (id, candidate name, room) applied to the
empty registry. -/
def applyJoins (ops : List (Nat × String × String)) : ServerState :=
  ops.foldl (fun st op => join st op.1 op.2.1 op.2.2) emptyServer

/-- Server-to-client events the modelled components emit. -/
inductive Outbound where
  | chatMessage (toId : Nat) (fromUsername : String) (body : String)
  | receipt (toId : Nat)
  | unknownRecipient (toId : Nat) (target : String)
  | peerLeft (toId : Nat) (peerId : Nat)
deriving DecidableEq

/-- Message scopes of the Chat Router (4.4). -/
inductive Scope where
  | globalScope
  | roomScope
  | privScope
deriving DecidableEq

/-- Modelled from the spec (4.4): the Chat Router fan-out. Private messages
resolve the target by username, failing back to the sender with
UnknownRecipientError; room messages go to every member of the sender's room
except the sender; global messages go to every live Session. -/
def routeChat (st : ServerState) (sender : Session) (scope : Scope)
    (target body : String) : List Outbound :=
  match scope with
  | .privScope =>
      match lookupByUsername st target with
      | none => [.unknownRecipient sender.id target]
      | some r => [.chatMessage r.id sender.username body, .receipt sender.id]
  | .roomScope =>
      ((listRoomMembers st sender.roomId).filter (fun s => s.id ≠ sender.id)).map
        (fun s => .chatMessage s.id sender.username body)
  | .globalScope =>
      st.sessions.map (fun s => .chatMessage s.id sender.username body)

/-- Events driving one pair's negotiation state machine (4.3): the offer
from A to B, the answer from B to A, a relayed ICE candidate in either
direction, and the disconnection of either party. -/
inductive SigEvent where
  | offer
  | answer
  | candAB
  | candBA
  | discA
  | discB
deriving DecidableEq

/-- Modelled from the spec (4.3): one transition of the per-pair negotiation
state machine. An offer starts (or, after Failed, restarts) negotiation; an
answer advances OfferSent to AnswerSent; candidates are dropped in Idle and
Failed (OutOfOrderSignalingError) and counted during the AnswerSent exchange
phase, reaching Connected once at least one has been relayed in each
direction; a disconnect before Connected fails the pair. -/
def stepNego (p : NegoEntry) (e : SigEvent) : NegoEntry :=
  match e with
  | .offer =>
      match p.st with
      | .Idle => ⟨.OfferSent, 0, 0⟩
      | .Failed => ⟨.OfferSent, 0, 0⟩
      | _ => p
  | .answer =>
      match p.st with
      | .OfferSent => { p with st := .AnswerSent }
      | _ => p
  | .candAB =>
      match p.st with
      | .AnswerSent =>
          if 1 ≤ p.candBA then ⟨.Connected, p.candAB + 1, p.candBA⟩
          else { p with candAB := p.candAB + 1 }
      | _ => p
  | .candBA =>
      match p.st with
      | .AnswerSent =>
          if 1 ≤ p.candAB then ⟨.Connected, p.candAB, p.candBA + 1⟩
          else { p with candBA := p.candBA + 1 }
      | _ => p
  | .discA =>
      match p.st with
      | .Connected => p
      | _ => { p with st := .Failed }
  | .discB =>
      match p.st with
      | .Connected => p
      | _ => { p with st := .Failed }

/-- The pair machine run from Idle over a trace of events. -/
def runNego (t : List SigEvent) : NegoEntry :=
  t.foldl stepNego ⟨.Idle, 0, 0⟩

/-- Modelled from the spec (4.1): whether a negotiation entry is an
in-flight negotiation referencing session i. -/
def inFlightRef (i : Nat) (ent : (Nat × Nat) × NegoEntry) : Bool :=
  (ent.1.1 = i ∨ ent.1.2 = i) ∧ ent.2.st ≠ NegState.Connected ∧ ent.2.st ≠ NegState.Failed

/-- The other party of a pair key with respect to session i. -/
def otherParty (i : Nat) (k : Nat × Nat) : Nat :=
  if k.1 = i then k.2 else k.1

/-- Modelled from the spec (4.1): cancelling one negotiation entry when
session i disconnects: in-flight entries referencing i become Failed. -/
def cancelEntry (i : Nat) (ent : (Nat × Nat) × NegoEntry) :
    (Nat × Nat) × NegoEntry :=
  if inFlightRef i ent then (ent.1, { ent.2 with st := NegState.Failed }) else ent

/-- Modelled from the spec (4.1): the peer-left notifications sent to the
other party of every in-flight negotiation referencing the leaving session. -/
def peerLeftEvents (i : Nat) (nego : List ((Nat × Nat) × NegoEntry)) : List Outbound :=
  (nego.filter (inFlightRef i)).map (fun ent => .peerLeft (otherParty i ent.1) i)

/-- Modelled from the spec (4.1): unregister. Unregistering an unknown id is
a no-op, not an error; otherwise the Session leaves the Registry (and hence
its Room's member set) and every in-flight negotiation referencing it is
cancelled, notifying the other party with a peer-left event. -/
def unregister (st : ServerState) (i : Nat) : ServerState × List Outbound :=
  if st.sessions.any (fun s => s.id = i) then
    ({ sessions := st.sessions.filter (fun s => s.id ≠ i),
       nego := st.nego.map (cancelEntry i) },
     peerLeftEvents i st.nego)
  else (st, [])

/-- Negotiation-table lookup by ordered pair key. -/
def lookupNego (st : ServerState) (k : Nat × Nat) : Option NegoEntry :=
  (st.nego.find? (fun ent => ent.1 = k)).map (fun ent => ent.2)

/-- The usernames currently held by live Sessions. -/
def usernames (st : ServerState) : List String :=
  st.sessions.map Session.username

/-- Value of a little-endian decimal digit list; inverse of decimalDigitsAux. -/
def ofDecimalDigits : List Nat → Nat
  | [] => 0
  | d :: ds => d + 10 * ofDecimalDigits ds

/-- Event e occurs at position i of the trace. -/
def hasAt (t : List SigEvent) (i : Nat) (e : SigEvent) : Prop :=
  t[i]? = some e

/-- The causal order the specification demands before Connected: an offer,
a later answer, and after the answer at least one relayed candidate in each
direction. -/
def ConnectedCausal (t : List SigEvent) : Prop :=
  ∃ i j a b, i < j ∧ j < a ∧ j < b ∧
    hasAt t i .offer ∧ hasAt t j .answer ∧ hasAt t a .candAB ∧ hasAt t b .candBA

/-- Inductive invariant of the pair machine relating the reached entry to
the trace that produced it. -/
def NegoInv (t : List SigEvent) : Prop :=
  ((runNego t).st = .Idle ∨ (runNego t).st = .OfferSent →
    (runNego t).candAB = 0 ∧ (runNego t).candBA = 0)
  ∧ ((runNego t).st = .OfferSent → ∃ i, hasAt t i .offer)
  ∧ ((runNego t).st = .AnswerSent →
      ∃ i j, i < j ∧ hasAt t i .offer ∧ hasAt t j .answer ∧
        (1 ≤ (runNego t).candAB → ∃ a, j < a ∧ hasAt t a .candAB) ∧
        (1 ≤ (runNego t).candBA → ∃ b, j < b ∧ hasAt t b .candBA))
  ∧ ((runNego t).st = .Connected → ConnectedCausal t)

/-! ### Client-side claims -/

/-- C8: evaluating the top level of src/script.js never throws, whichever of
the mic, video, and end-call button elements (and the localVideo element)
are absent: every getElementById result is null-checked before
addEventListener is called, so registration is skipped instead of failing. -/
theorem scriptJs_top_level_never_throws (doc : Doc) :
    ∃ regs, scriptJsTopLevel doc = Except.ok regs := by
  obtain ⟨lv, mb, vb, eb⟩ := doc
  cases mb <;> cases vb <;> cases eb <;> exact ⟨_, rfl⟩

/-- C9: the handlers toggleMic, toggleVideo and endCall of src/script.js and
of the src/unnamed/part_000 variant leave the entire client state (including
localStream and every media track) unchanged on every invocation, and their
only effect is a single console log, respectively a single alert. -/
theorem handlers_have_no_state_effect (s : ClientState) :
    toggleMic s = (s, [.consoleLog "Mic toggle not fully implemented in this basic example."])
    ∧ toggleVideo s = (s, [.consoleLog "Video toggle not fully implemented in this basic example."])
    ∧ endCall s = (s, [.consoleLog "End call not fully implemented in this basic example."])
    ∧ toggleMicVariant s = (s, [.alertMsg "Mic toggle not fully implemented in this basic example."])
    ∧ toggleVideoVariant s = (s, [.alertMsg "Video toggle not fully implemented in this basic example."])
    ∧ endCallVariant s = (s, [.alertMsg "End call not fully implemented in this basic example."]) :=
  ⟨rfl, rfl, rfl, rfl, rfl, rfl⟩

/-- C10: when the getUserMedia promise rejects, the attached catch handler
consumes the rejection and only logs it: no exception propagates (the result
is ok, not an error), the state is unchanged — in particular, starting from
the state at the top of the script, localStream remains undefined and
srcObject is never assigned. -/
theorem media_rejection_only_logs (doc : Doc) (s : ClientState) (err : String) :
    mediaPromiseResolve doc s (Except.error err) =
      Except.ok (s, [.consoleError "Error accessing media devices:"])
    ∧ initialClientState.localStream = none
    ∧ initialClientState.srcObject = none :=
  ⟨rfl, rfl, rfl⟩

/-! ### Identity Resolver: correctness of the suffix search -/

lemma ofDecimalDigits_decimalDigitsAux :
    ∀ fuel n, n ≤ fuel → ofDecimalDigits (decimalDigitsAux fuel n) = n := by
  intro fuel
  induction fuel with
  | zero =>
    intro n h
    have : n = 0 := Nat.le_zero.mp h
    simp [this, decimalDigitsAux, ofDecimalDigits]
  | succ f ih =>
    intro n h
    by_cases hn : n = 0
    · simp [hn, decimalDigitsAux, ofDecimalDigits]
    · have hdiv : n / 10 < n := Nat.div_lt_self (Nat.pos_of_ne_zero hn) (by omega)
      have hrec := ih (n / 10) (by omega)
      simp only [decimalDigitsAux, hn, if_false, ofDecimalDigits, hrec]
      omega

lemma decimalDigitsAux_lt_ten :
    ∀ fuel n d, d ∈ decimalDigitsAux fuel n → d < 10 := by
  intro fuel
  induction fuel with
  | zero => intro n d h; simp [decimalDigitsAux] at h
  | succ f ih =>
    intro n d h
    by_cases hn : n = 0
    · simp [decimalDigitsAux, hn] at h
    · simp only [decimalDigitsAux, hn, if_false, List.mem_cons] at h
      rcases h with h | h
      · omega
      · exact ih _ _ h

lemma digitChar_inj_lt_ten {a b : Nat} (ha : a < 10) (hb : b < 10)
    (h : Nat.digitChar a = Nat.digitChar b) : a = b := by
  interval_cases a <;> interval_cases b <;> simp_all [Nat.digitChar]

lemma map_digitChar_inj :
    ∀ (l1 l2 : List Nat), (∀ d ∈ l1, d < 10) → (∀ d ∈ l2, d < 10) →
      l1.map Nat.digitChar = l2.map Nat.digitChar → l1 = l2 := by
  intro l1
  induction l1 with
  | nil => intro l2 _ _ h; cases l2 <;> simp_all
  | cons a l ih =>
    intro l2 h1 h2 h
    cases l2 with
    | nil => simp at h
    | cons b l' =>
      simp only [List.map_cons, List.cons.injEq] at h
      have hab : a = b :=
        digitChar_inj_lt_ten (h1 a (by simp)) (h2 b (by simp)) h.1
      have : l = l' := ih l' (fun d hd => h1 d (by simp [hd]))
        (fun d hd => h2 d (by simp [hd])) h.2
      rw [hab, this]

lemma decimalRepr_inj {m n : Nat} (hm : 0 < m) (hn : 0 < n)
    (h : decimalRepr m = decimalRepr n) : m = n := by
  unfold decimalRepr at h
  rw [if_neg (by omega), if_neg (by omega)] at h
  have hdata : ((decimalDigitsAux m m).reverse).map Nat.digitChar =
      ((decimalDigitsAux n n).reverse).map Nat.digitChar := by
    injection h
  have hrev : (decimalDigitsAux m m).reverse = (decimalDigitsAux n n).reverse := by
    apply map_digitChar_inj _ _ _ _ hdata
    · intro d hd; exact decimalDigitsAux_lt_ten m m d (List.mem_reverse.mp hd)
    · intro d hd; exact decimalDigitsAux_lt_ten n n d (List.mem_reverse.mp hd)
  have hdig : decimalDigitsAux m m = decimalDigitsAux n n :=
    List.reverse_injective hrev
  have h1 := ofDecimalDigits_decimalDigitsAux m m (le_refl m)
  have h2 := ofDecimalDigits_decimalDigitsAux n n (le_refl n)
  rw [← h1, ← h2, hdig]

lemma nameWithSuffix_inj (base : String) {j k : Nat} (hj : 0 < j) (hk : 0 < k)
    (h : nameWithSuffix base j = nameWithSuffix base k) : j = k := by
  unfold nameWithSuffix at h
  have hdata := congrArg String.data h
  simp only [String.data_append] at hdata
  have hrepr : (decimalRepr j).data = (decimalRepr k).data :=
    List.append_cancel_left hdata
  have : decimalRepr j = decimalRepr k := by
    cases hj' : decimalRepr j
    cases hk' : decimalRepr k
    simp_all
  exact decimalRepr_inj hj hk this

lemma exists_unused_suffix (taken : List String) (base : String) :
    ∃ j, 2 ≤ j ∧ j < taken.length + 3 ∧ nameWithSuffix base j ∉ taken := by
  by_contra hcon
  push_neg at hcon
  have hinj : Function.Injective (fun i : Nat => nameWithSuffix base (i + 2)) := by
    intro a b hab
    have := nameWithSuffix_inj base (j := a + 2) (k := b + 2) (by omega) (by omega) hab
    omega
  have hnd : ((List.range (taken.length + 1)).map
      (fun i => nameWithSuffix base (i + 2))).Nodup :=
    (List.nodup_range _).map hinj
  have hsub : ∀ x ∈ (List.range (taken.length + 1)).map
      (fun i => nameWithSuffix base (i + 2)), x ∈ taken := by
    intro x hx
    rcases List.mem_map.mp hx with ⟨i, hi, rfl⟩
    exact hcon (i + 2) (by omega) (by have := List.mem_range.mp hi; omega)
  have hcard1 : ((List.range (taken.length + 1)).map
      (fun i => nameWithSuffix base (i + 2))).toFinset.card = taken.length + 1 := by
    rw [List.toFinset_card_of_nodup hnd]
    simp
  have hcard2 : ((List.range (taken.length + 1)).map
      (fun i => nameWithSuffix base (i + 2))).toFinset.card ≤ taken.length := by
    calc ((List.range (taken.length + 1)).map
        (fun i => nameWithSuffix base (i + 2))).toFinset.card
        ≤ taken.toFinset.card := by
          apply Finset.card_le_card
          intro x hx
          exact List.mem_toFinset.mpr (hsub x (List.mem_toFinset.mp hx))
      _ ≤ taken.length := List.toFinset_card_le taken
  omega

lemma claimAux_spec (taken : List String) (base : String) :
    ∀ fuel k, (∃ j, k ≤ j ∧ j < k + fuel ∧ nameWithSuffix base j ∉ taken) →
      ∃ m, k ≤ m ∧ claimAux taken base fuel k = nameWithSuffix base m ∧
        nameWithSuffix base m ∉ taken ∧
        ∀ j, k ≤ j → j < m → nameWithSuffix base j ∈ taken := by
  intro fuel
  induction fuel with
  | zero =>
    intro k h
    rcases h with ⟨j, hj1, hj2, _⟩
    omega
  | succ f ih =>
    intro k h
    rcases h with ⟨j, hj1, hj2, hj3⟩
    by_cases hk : nameWithSuffix base k ∈ taken
    · have hjk : j ≠ k := by
        intro he
        exact hj3 (he ▸ hk)
      rcases ih (k + 1) ⟨j, by omega, by omega, hj3⟩ with ⟨m, hm1, hm2, hm3, hm4⟩
      refine ⟨m, by omega, ?_, hm3, ?_⟩
      · simp only [claimAux, hk, if_true]
        exact hm2
      · intro j' h1 h2
        rcases Nat.lt_or_ge k j' with hlt | hge
        · exact hm4 j' (by omega) h2
        · have : j' = k := by omega
          rw [this]
          exact hk
    · refine ⟨k, le_refl k, ?_, hk, ?_⟩
      · simp only [claimAux, hk, if_false]
      · intro j' h1 h2
        omega

lemma claim_not_mem (taken : List String) (c : String) : claim taken c ∉ taken := by
  unfold claim
  by_cases hc : c ∈ taken
  · rw [if_pos hc]
    rcases exists_unused_suffix taken c with ⟨j, hj1, hj2, hj3⟩
    rcases claimAux_spec taken c (taken.length + 1) 2 ⟨j, hj1, by omega, hj3⟩ with
      ⟨m, _, hm2, hm3, _⟩
    rw [hm2]
    exact hm3
  · rw [if_neg hc]
    exact hc

lemma join_preserves_nodup (st : ServerState) (i : Nat) (c r : String)
    (h : (usernames st).Nodup) : (usernames (join st i c r)).Nodup := by
  unfold join
  by_cases h1 : c.trim = ""
  · rw [if_pos h1]; exact h
  · rw [if_neg h1]
    by_cases h2 : st.sessions.any (fun s => s.id = i) = true
    · rw [if_pos h2]; exact h
    · rw [if_neg h2]
      simp only [usernames, List.map_cons, List.nodup_cons]
      exact ⟨claim_not_mem (st.sessions.map Session.username) c, h⟩

lemma applyJoins_aux_nodup (ops : List (Nat × String × String)) :
    ∀ st : ServerState, (usernames st).Nodup →
      (usernames (ops.foldl (fun st op => join st op.1 op.2.1 op.2.2) st)).Nodup := by
  induction ops with
  | nil => intro st h; exact h
  | cons op ops ih =>
    intro st h
    exact ih _ (join_preserves_nodup st op.1 op.2.1 op.2.2 h)

/-- C1: after any sequence of join operations starting from the empty
Registry, the usernames held by live Sessions are pairwise distinct; since
every prefix of a join sequence is itself a join sequence, the invariant
holds at every point in time. -/
theorem usernames_pairwise_distinct (ops : List (Nat × String × String)) :
    (usernames (applyJoins ops)).Nodup :=
  applyJoins_aux_nodup ops emptyServer List.nodup_nil

/-- C2: the Identity Resolver's claim operation always yields a name that is
not currently in use; it grants an unused candidate unchanged, and for a
taken candidate it returns the candidate with the smallest numeric suffix
(starting at 2) whose result is unused. The operation is a pure total Lean
function of the candidate and the name set, hence deterministic and
terminating. -/
theorem claim_grants_smallest_free_suffix (taken : List String) (c : String) :
    claim taken c ∉ taken
    ∧ (c ∉ taken → claim taken c = c)
    ∧ (c ∈ taken → ∃ k, 2 ≤ k ∧ claim taken c = nameWithSuffix c k ∧
        nameWithSuffix c k ∉ taken ∧
        ∀ j, 2 ≤ j → j < k → nameWithSuffix c j ∈ taken) := by
  refine ⟨claim_not_mem taken c, fun hc => ?_, fun hc => ?_⟩
  · unfold claim
    rw [if_neg hc]
  · rcases exists_unused_suffix taken c with ⟨j, hj1, hj2, hj3⟩
    rcases claimAux_spec taken c (taken.length + 1) 2 ⟨j, hj1, by omega, hj3⟩ with
      ⟨m, hm1, hm2, hm3, hm4⟩
    refine ⟨m, hm1, ?_, hm3, fun j' h1 h2 => hm4 j' h1 h2⟩
    unfold claim
    rw [if_pos hc]
    exact hm2

/-- Witness for C2 at a concrete name set: with sam taken, claiming sam
yields the unused name sam-2. -/
theorem claim_grants_smallest_free_suffix_witness :
    claim ["sam"] "sam" ∉ ["sam"]
    ∧ (∃ k, 2 ≤ k ∧ claim ["sam"] "sam" = nameWithSuffix "sam" k ∧
        nameWithSuffix "sam" k ∉ ["sam"] ∧
        ∀ j, 2 ≤ j → j < k → nameWithSuffix "sam" j ∈ ["sam"])
    ∧ claim ["sam"] "sam" = "sam-2" :=
  ⟨(claim_grants_smallest_free_suffix ["sam"] "sam").1,
   (claim_grants_smallest_free_suffix ["sam"] "sam").2.2 (by decide),
   by decide⟩

/-- C3: unregistering an id that is not present leaves the registry
unchanged and emits nothing, and a second unregister of the same id after a
first one is always such a no-op, so unregister is idempotent and never an
error. -/
theorem unregister_idempotent (st : ServerState) (i : Nat) :
    ((∀ s ∈ st.sessions, s.id ≠ i) → unregister st i = (st, []))
    ∧ unregister (unregister st i).1 i = ((unregister st i).1, []) := by
  have absent : ∀ t : ServerState, (∀ s ∈ t.sessions, s.id ≠ i) →
      unregister t i = (t, []) := by
    intro t h
    unfold unregister
    rw [if_neg]
    simp only [List.any_eq_true, decide_eq_true_eq, not_exists]
    intro s
    exact fun hc => h s hc.1 hc.2
  refine ⟨absent st, ?_⟩
  by_cases h : st.sessions.any (fun s => s.id = i) = true
  · apply absent
    intro s hs
    have hfst : (unregister st i).1.sessions =
        st.sessions.filter (fun s => s.id ≠ i) := by
      unfold unregister
      rw [if_pos h]
    rw [hfst] at hs
    have := (List.mem_filter.mp hs).2
    simpa using this
  · apply absent
    intro s hs
    have hfst : (unregister st i).1 = st := by
      unfold unregister
      rw [if_neg h]
    rw [hfst] at hs
    simp only [List.any_eq_true, decide_eq_true_eq, not_exists] at h
    exact fun he => h s ⟨hs, he⟩

/-- Witness for C3 at a concrete registry: unregistering an unknown id on an
empty registry is a no-op, and so is the second of two unregisters. -/
theorem unregister_idempotent_witness :
    unregister ⟨[], []⟩ 5 = (⟨[], []⟩, [])
    ∧ unregister (unregister ⟨[], []⟩ 5).1 5 = ((unregister ⟨[], []⟩ 5).1, []) :=
  ⟨(unregister_idempotent ⟨[], []⟩ 5).1 (by simp),
   (unregister_idempotent ⟨[], []⟩ 5).2⟩

/-- C4: routing a private message whose target username is not held by any
live Session produces exactly one UnknownRecipientError response, delivered
to the sender, and nothing else; when the target resolves, it delivers to
exactly that one Session plus a receipt to the sender. -/
theorem private_unknown_recipient (st : ServerState) (sender : Session)
    (target body : String) :
    ((∀ s ∈ st.sessions, s.username ≠ target) →
      routeChat st sender .privScope target body =
        [.unknownRecipient sender.id target])
    ∧ (∀ r, lookupByUsername st target = some r →
      routeChat st sender .privScope target body =
        [.chatMessage r.id sender.username body, .receipt sender.id]) := by
  constructor
  · intro h
    have hnone : lookupByUsername st target = none := by
      unfold lookupByUsername
      rw [List.find?_eq_none]
      intro s hs
      simpa using h s hs
    simp [routeChat, hnone]
  · intro r hr
    simp [routeChat, hr]

/-- Witness for C4: in a registry holding only alice, a private message to
zed errors back to the sender alone, and one to alice delivers to alice plus
a receipt. -/
theorem private_unknown_recipient_witness :
    routeChat ⟨[⟨1, "alice", "main"⟩], []⟩ ⟨1, "alice", "main"⟩ .privScope "zed" "hi" =
      [.unknownRecipient 1 "zed"]
    ∧ routeChat ⟨[⟨1, "alice", "main"⟩], []⟩ ⟨1, "alice", "main"⟩ .privScope "alice" "hi" =
      [.chatMessage 1 "alice" "hi", .receipt 1] :=
  ⟨(private_unknown_recipient ⟨[⟨1, "alice", "main"⟩], []⟩ ⟨1, "alice", "main"⟩
      "zed" "hi").1 (by decide),
   (private_unknown_recipient ⟨[⟨1, "alice", "main"⟩], []⟩ ⟨1, "alice", "main"⟩
      "alice" "hi").2 ⟨1, "alice", "main"⟩ (by decide)⟩

/-- C5: the recipient set of a room-scoped message from sender S is exactly
the current members of S's room other than S: every such member receives the
message, every delivery goes to such a member, and (when session ids are
unique, as the Registry guarantees) no other-room Session and not S itself
receives anything. -/
theorem room_fanout_exact (st : ServerState) (sender : Session)
    (target body : String) :
    (∀ s ∈ st.sessions, s.roomId = sender.roomId → s.id ≠ sender.id →
      Outbound.chatMessage s.id sender.username body ∈
        routeChat st sender .roomScope target body)
    ∧ (∀ o ∈ routeChat st sender .roomScope target body,
      ∃ s, s ∈ st.sessions ∧ o = .chatMessage s.id sender.username body ∧
        s.roomId = sender.roomId ∧ s.id ≠ sender.id)
    ∧ ((st.sessions.map Session.id).Nodup →
      ∀ s ∈ st.sessions, s.roomId ≠ sender.roomId ∨ s.id = sender.id →
        Outbound.chatMessage s.id sender.username body ∉
          routeChat st sender .roomScope target body) := by
  have hcomplete : ∀ o ∈ routeChat st sender .roomScope target body,
      ∃ s, s ∈ st.sessions ∧ o = .chatMessage s.id sender.username body ∧
        s.roomId = sender.roomId ∧ s.id ≠ sender.id := by
    intro o ho
    simp only [routeChat, listRoomMembers] at ho
    rcases List.mem_map.mp ho with ⟨s, hsf, rfl⟩
    rw [List.mem_filter] at hsf
    rcases hsf with ⟨hsr, hid⟩
    rw [List.mem_filter] at hsr
    rcases hsr with ⟨hs, hroom⟩
    exact ⟨s, hs, rfl, by simpa using hroom, by simpa using hid⟩
  refine ⟨?_, hcomplete, ?_⟩
  · intro s hs hroom hid
    simp only [routeChat, listRoomMembers]
    apply List.mem_map.mpr
    refine ⟨s, ?_, rfl⟩
    rw [List.mem_filter]
    refine ⟨?_, by simpa using hid⟩
    rw [List.mem_filter]
    exact ⟨hs, by simpa using hroom⟩
  · intro hnd s hs hbad hmem
    rcases hcomplete _ hmem with ⟨s', hs', heq, hroom', hid'⟩
    have hids : s.id = s'.id := by
      injection heq
    have : s = s' := List.inj_on_of_nodup_map hnd hs hs' hids
    rcases hbad with hb | hb
    · exact hb (this ▸ hroom')
    · exact hid' (this ▸ hb ▸ rfl)

/-- Witness for C5: with alice and bob in room main and carol in room x, a
room message from alice reaches bob, every delivery is to a main member
other than alice, and neither alice nor carol receives it. -/
theorem room_fanout_exact_witness :
    Outbound.chatMessage 2 "alice" "hi" ∈
      routeChat ⟨[⟨1, "alice", "main"⟩, ⟨2, "bob", "main"⟩, ⟨3, "carol", "x"⟩], []⟩
        ⟨1, "alice", "main"⟩ .roomScope "" "hi"
    ∧ Outbound.chatMessage 3 "alice" "hi" ∉
      routeChat ⟨[⟨1, "alice", "main"⟩, ⟨2, "bob", "main"⟩, ⟨3, "carol", "x"⟩], []⟩
        ⟨1, "alice", "main"⟩ .roomScope "" "hi"
    ∧ Outbound.chatMessage 1 "alice" "hi" ∉
      routeChat ⟨[⟨1, "alice", "main"⟩, ⟨2, "bob", "main"⟩, ⟨3, "carol", "x"⟩], []⟩
        ⟨1, "alice", "main"⟩ .roomScope "" "hi" :=
  ⟨(room_fanout_exact ⟨[⟨1, "alice", "main"⟩, ⟨2, "bob", "main"⟩, ⟨3, "carol", "x"⟩], []⟩
      ⟨1, "alice", "main"⟩ "" "hi").1 ⟨2, "bob", "main"⟩ (by simp) (by decide) (by decide),
   (room_fanout_exact ⟨[⟨1, "alice", "main"⟩, ⟨2, "bob", "main"⟩, ⟨3, "carol", "x"⟩], []⟩
      ⟨1, "alice", "main"⟩ "" "hi").2.2 (by decide) ⟨3, "carol", "x"⟩ (by simp)
      (Or.inl (by decide)),
   (room_fanout_exact ⟨[⟨1, "alice", "main"⟩, ⟨2, "bob", "main"⟩, ⟨3, "carol", "x"⟩], []⟩
      ⟨1, "alice", "main"⟩ "" "hi").2.2 (by decide) ⟨1, "alice", "main"⟩ (by simp)
      (Or.inr (by decide))⟩

lemma find?_map_cancelEntry (i : Nat) (k : Nat × Nat)
    (l : List ((Nat × Nat) × NegoEntry)) :
    (l.map (cancelEntry i)).find? (fun ent => ent.1 = k) =
      (l.find? (fun ent => ent.1 = k)).map (cancelEntry i) := by
  induction l with
  | nil => rfl
  | cons a l ih =>
    have hkey : (cancelEntry i a).1 = a.1 := by
      unfold cancelEntry
      split
      · rfl
      · rfl
    by_cases h : a.1 = k
    · rw [List.map_cons, List.find?_cons_of_pos _ (by simpa [hkey] using h),
        List.find?_cons_of_pos _ (by simpa using h)]
      rfl
    · rw [List.map_cons, List.find?_cons_of_neg _ (by simpa [hkey] using h),
        List.find?_cons_of_neg _ (by simpa using h), ih]

/-- C7: if the negotiation entry for the ordered pair (A, B) is OfferSent
and A is a live session, then unregistering A marks that pair Failed and the
emitted events include a peer-left notification to B; moreover Failed is
terminal for the pair machine except that a fresh offer restarts the
negotiation as from Idle. -/
theorem disconnect_fails_offerSent_pair (st : ServerState) (A B : Nat)
    (ent : NegoEntry) (sA : Session)
    (hmem : sA ∈ st.sessions) (hid : sA.id = A)
    (hent : lookupNego st (A, B) = some ent)
    (hst : ent.st = .OfferSent) :
    lookupNego (unregister st A).1 (A, B) = some ⟨.Failed, ent.candAB, ent.candBA⟩
    ∧ Outbound.peerLeft B A ∈ (unregister st A).2
    ∧ (∀ c1 c2 e, e ≠ SigEvent.offer →
        (stepNego ⟨.Failed, c1, c2⟩ e).st = .Failed)
    ∧ (∀ c1 c2, stepNego ⟨.Failed, c1, c2⟩ .offer = ⟨.OfferSent, 0, 0⟩) := by
  have hany : st.sessions.any (fun s => s.id = A) = true := by
    simp only [List.any_eq_true, decide_eq_true_eq]
    exact ⟨sA, hmem, hid⟩
  obtain ⟨el, hel, hel2⟩ : ∃ el, st.nego.find? (fun ent => ent.1 = (A, B)) = some el
      ∧ el.2 = ent := by
    unfold lookupNego at hent
    rcases hfind : st.nego.find? (fun ent => ent.1 = (A, B)) with _ | el
    · rw [hfind] at hent
      simp at hent
    · rw [hfind] at hent
      simp only [Option.map_some'] at hent
      exact ⟨el, hfind, by injection hent⟩
  have helkey : el.1 = (A, B) := by
    have := List.find?_some hel
    simpa using this
  have hflight : inFlightRef A el = true := by
    unfold inFlightRef
    simp only [decide_eq_true_eq]
    refine ⟨Or.inl (by rw [helkey]), ?_, ?_⟩
    · rw [hel2, hst]
      decide
    · rw [hel2, hst]
      decide
  have hcancel : cancelEntry A el = ((A, B), ⟨.Failed, ent.candAB, ent.candBA⟩) := by
    unfold cancelEntry
    rw [if_pos hflight, helkey, hel2]
  refine ⟨?_, ?_, ?_, ?_⟩
  · have hfst : (unregister st A).1 =
        ⟨st.sessions.filter (fun s => s.id ≠ A), st.nego.map (cancelEntry A)⟩ := by
      unfold unregister
      rw [if_pos hany]
    rw [hfst]
    unfold lookupNego
    simp only
    rw [find?_map_cancelEntry, hel]
    simp only [Option.map_some']
    rw [hcancel]
  · have hsnd : (unregister st A).2 = peerLeftEvents A st.nego := by
      unfold unregister
      rw [if_pos hany]
    rw [hsnd]
    unfold peerLeftEvents
    apply List.mem_map.mpr
    refine ⟨el, ?_, ?_⟩
    · rw [List.mem_filter]
      exact ⟨List.mem_of_find?_eq_some hel, hflight⟩
    · rw [helkey]
      simp [otherParty]
  · intro c1 c2 e he
    cases e with
    | offer => exact absurd rfl he
    | answer => rfl
    | candAB => rfl
    | candBA => rfl
    | discA => rfl
    | discB => rfl
  · intro c1 c2
    rfl

/-- Witness for C7 at a concrete registry: with alice (id 1) and bob (id 2)
and the pair (1, 2) in OfferSent, unregistering 1 fails the pair and
notifies 2. -/
theorem disconnect_fails_offerSent_pair_witness :
    lookupNego (unregister ⟨[⟨1, "alice", "main"⟩, ⟨2, "bob", "main"⟩],
        [((1, 2), ⟨.OfferSent, 0, 0⟩)]⟩ 1).1 (1, 2) = some ⟨.Failed, 0, 0⟩
    ∧ Outbound.peerLeft 2 1 ∈ (unregister ⟨[⟨1, "alice", "main"⟩, ⟨2, "bob", "main"⟩],
        [((1, 2), ⟨.OfferSent, 0, 0⟩)]⟩ 1).2 :=
  ⟨(disconnect_fails_offerSent_pair ⟨[⟨1, "alice", "main"⟩, ⟨2, "bob", "main"⟩],
      [((1, 2), ⟨.OfferSent, 0, 0⟩)]⟩ 1 2 ⟨.OfferSent, 0, 0⟩ ⟨1, "alice", "main"⟩
      (by simp) rfl (by decide) rfl).1,
   (disconnect_fails_offerSent_pair ⟨[⟨1, "alice", "main"⟩, ⟨2, "bob", "main"⟩],
      [((1, 2), ⟨.OfferSent, 0, 0⟩)]⟩ 1 2 ⟨.OfferSent, 0, 0⟩ ⟨1, "alice", "main"⟩
      (by simp) rfl (by decide) rfl).2.1⟩

/-! ### The negotiation state machine only connects in causal order -/

lemma hasAt_lt {t : List SigEvent} {i : Nat} {e : SigEvent} (h : hasAt t i e) :
    i < t.length := by
  rcases List.getElem?_eq_some.mp h with ⟨h1, _⟩
  exact h1

lemma hasAt_append (t : List SigEvent) (x : SigEvent) {i : Nat} {e : SigEvent}
    (h : hasAt t i e) : hasAt (t ++ [x]) i e := by
  have hlt : i < t.length := hasAt_lt h
  unfold hasAt at h ⊢
  rw [List.getElem?_append_left hlt]
  exact h

lemma hasAt_last (t : List SigEvent) (x : SigEvent) : hasAt (t ++ [x]) t.length x :=
  List.getElem?_concat_length t x

lemma connectedCausal_append (t : List SigEvent) (x : SigEvent)
    (h : ConnectedCausal t) : ConnectedCausal (t ++ [x]) := by
  rcases h with ⟨i, j, a, b, h1, h2, h3, h4, h5, h6, h7⟩
  exact ⟨i, j, a, b, h1, h2, h3, hasAt_append t x h4, hasAt_append t x h5,
    hasAt_append t x h6, hasAt_append t x h7⟩

lemma runNego_append (t : List SigEvent) (e : SigEvent) :
    runNego (t ++ [e]) = stepNego (runNego t) e := by
  unfold runNego
  rw [List.foldl_append]
  rfl

lemma negoInv_lift (t : List SigEvent) (x : SigEvent) (h : NegoInv t)
    (heq : runNego (t ++ [x]) = runNego t) : NegoInv (t ++ [x]) := by
  obtain ⟨inv0, inv1, inv2, inv3⟩ := h
  unfold NegoInv
  rw [heq]
  refine ⟨inv0, fun h1 => ?_, fun h2 => ?_, fun h3 => connectedCausal_append t x (inv3 h3)⟩
  · rcases inv1 h1 with ⟨i, hi⟩
    exact ⟨i, hasAt_append t x hi⟩
  · rcases inv2 h2 with ⟨i, j, hij, hio, hja, hcA, hcB⟩
    refine ⟨i, j, hij, hasAt_append t x hio, hasAt_append t x hja, fun hc => ?_, fun hc => ?_⟩
    · rcases hcA hc with ⟨a, ha1, ha2⟩
      exact ⟨a, ha1, hasAt_append t x ha2⟩
    · rcases hcB hc with ⟨b, hb1, hb2⟩
      exact ⟨b, hb1, hasAt_append t x hb2⟩

lemma negoInv_failed (t : List SigEvent) (h : (runNego t).st = .Failed) :
    NegoInv t := by
  unfold NegoInv
  rw [h]
  refine ⟨fun hc => ?_, fun hc => ?_, fun hc => ?_, fun hc => ?_⟩
  · rcases hc with hc | hc <;> exact NegState.noConfusion hc
  · exact NegState.noConfusion hc
  · exact NegState.noConfusion hc
  · exact NegState.noConfusion hc

lemma negoInv_offerFresh (t : List SigEvent)
    (h : runNego (t ++ [.offer]) = ⟨.OfferSent, 0, 0⟩) : NegoInv (t ++ [.offer]) := by
  unfold NegoInv
  rw [h]
  exact ⟨fun _ => ⟨rfl, rfl⟩, fun _ => ⟨t.length, hasAt_last t .offer⟩,
    fun hc => NegState.noConfusion hc, fun hc => NegState.noConfusion hc⟩

lemma negoInv (t : List SigEvent) : NegoInv t := by
  induction t using List.reverseRecOn with
  | nil =>
    exact ⟨fun _ => ⟨rfl, rfl⟩, fun h => NegState.noConfusion h,
      fun h => NegState.noConfusion h, fun h => NegState.noConfusion h⟩
  | append_singleton t e ih =>
    rcases hp : runNego t with ⟨st, cab, cba⟩
    cases e with
    | offer =>
      cases st with
      | Idle => exact negoInv_offerFresh t (by rw [runNego_append, hp]; rfl)
      | Failed => exact negoInv_offerFresh t (by rw [runNego_append, hp]; rfl)
      | OfferSent => exact negoInv_lift t _ ih (by rw [runNego_append, hp]; rfl)
      | AnswerSent => exact negoInv_lift t _ ih (by rw [runNego_append, hp]; rfl)
      | Connected => exact negoInv_lift t _ ih (by rw [runNego_append, hp]; rfl)
    | answer =>
      cases st with
      | OfferSent =>
        obtain ⟨inv0, inv1, inv2, inv3⟩ := ih
        rw [hp] at inv0 inv1
        obtain ⟨hc0, hc1⟩ := inv0 (Or.inr rfl)
        rcases inv1 rfl with ⟨i, hi⟩
        have hres : runNego (t ++ [.answer]) = ⟨.AnswerSent, cab, cba⟩ := by
          rw [runNego_append, hp]
          rfl
        unfold NegoInv
        rw [hres]
        refine ⟨fun hc => ?_, fun hc => NegState.noConfusion hc, fun _ => ?_,
          fun hc => NegState.noConfusion hc⟩
        · rcases hc with hc | hc <;> exact NegState.noConfusion hc
        · refine ⟨i, t.length, hasAt_lt hi, hasAt_append t _ hi,
            hasAt_last t .answer, fun hcc => ?_, fun hcc => ?_⟩
          · rw [hc0] at hcc
            omega
          · rw [hc1] at hcc
            omega
      | Idle => exact negoInv_lift t _ ih (by rw [runNego_append, hp]; rfl)
      | AnswerSent => exact negoInv_lift t _ ih (by rw [runNego_append, hp]; rfl)
      | Connected => exact negoInv_lift t _ ih (by rw [runNego_append, hp]; rfl)
      | Failed => exact negoInv_lift t _ ih (by rw [runNego_append, hp]; rfl)
    | candAB =>
      cases st with
      | AnswerSent =>
        obtain ⟨inv0, inv1, inv2, inv3⟩ := ih
        rw [hp] at inv2
        rcases inv2 rfl with ⟨i, j, hij, hio, hja, hcA, hcB⟩
        by_cases hcba : 1 ≤ cba
        · have hres : runNego (t ++ [.candAB]) = ⟨.Connected, cab + 1, cba⟩ := by
            rw [runNego_append, hp]
            simp only [stepNego]
            rw [if_pos hcba]
          rcases hcB hcba with ⟨b, hb1, hb2⟩
          unfold NegoInv
          rw [hres]
          refine ⟨fun hc => ?_, fun hc => NegState.noConfusion hc,
            fun hc => NegState.noConfusion hc, fun _ => ?_⟩
          · rcases hc with hc | hc <;> exact NegState.noConfusion hc
          · exact ⟨i, j, t.length, b, hij, hasAt_lt hja, hb1,
              hasAt_append t _ hio, hasAt_append t _ hja,
              hasAt_last t .candAB, hasAt_append t _ hb2⟩
        · have hres : runNego (t ++ [.candAB]) = ⟨.AnswerSent, cab + 1, cba⟩ := by
            rw [runNego_append, hp]
            simp only [stepNego]
            rw [if_neg hcba]
          unfold NegoInv
          rw [hres]
          refine ⟨fun hc => ?_, fun hc => NegState.noConfusion hc, fun _ => ?_,
            fun hc => NegState.noConfusion hc⟩
          · rcases hc with hc | hc <;> exact NegState.noConfusion hc
          · refine ⟨i, j, hij, hasAt_append t _ hio, hasAt_append t _ hja,
              fun _ => ⟨t.length, hasAt_lt hja, hasAt_last t .candAB⟩, fun hcc => ?_⟩
            rcases hcB hcc with ⟨b, hb1, hb2⟩
            exact ⟨b, hb1, hasAt_append t _ hb2⟩
      | Idle => exact negoInv_lift t _ ih (by rw [runNego_append, hp]; rfl)
      | OfferSent => exact negoInv_lift t _ ih (by rw [runNego_append, hp]; rfl)
      | Connected => exact negoInv_lift t _ ih (by rw [runNego_append, hp]; rfl)
      | Failed => exact negoInv_lift t _ ih (by rw [runNego_append, hp]; rfl)
    | candBA =>
      cases st with
      | AnswerSent =>
        obtain ⟨inv0, inv1, inv2, inv3⟩ := ih
        rw [hp] at inv2
        rcases inv2 rfl with ⟨i, j, hij, hio, hja, hcA, hcB⟩
        by_cases hcab : 1 ≤ cab
        · have hres : runNego (t ++ [.candBA]) = ⟨.Connected, cab, cba + 1⟩ := by
            rw [runNego_append, hp]
            simp only [stepNego]
            rw [if_pos hcab]
          rcases hcA hcab with ⟨a, ha1, ha2⟩
          unfold NegoInv
          rw [hres]
          refine ⟨fun hc => ?_, fun hc => NegState.noConfusion hc,
            fun hc => NegState.noConfusion hc, fun _ => ?_⟩
          · rcases hc with hc | hc <;> exact NegState.noConfusion hc
          · exact ⟨i, j, a, t.length, hij, ha1, hasAt_lt hja,
              hasAt_append t _ hio, hasAt_append t _ hja,
              hasAt_append t _ ha2, hasAt_last t .candBA⟩
        · have hres : runNego (t ++ [.candBA]) = ⟨.AnswerSent, cab, cba + 1⟩ := by
            rw [runNego_append, hp]
            simp only [stepNego]
            rw [if_neg hcab]
          unfold NegoInv
          rw [hres]
          refine ⟨fun hc => ?_, fun hc => NegState.noConfusion hc, fun _ => ?_,
            fun hc => NegState.noConfusion hc⟩
          · rcases hc with hc | hc <;> exact NegState.noConfusion hc
          · refine ⟨i, j, hij, hasAt_append t _ hio, hasAt_append t _ hja,
              fun hcc => ?_, fun _ => ⟨t.length, hasAt_lt hja, hasAt_last t .candBA⟩⟩
            rcases hcA hcc with ⟨a, ha1, ha2⟩
            exact ⟨a, ha1, hasAt_append t _ ha2⟩
      | Idle => exact negoInv_lift t _ ih (by rw [runNego_append, hp]; rfl)
      | OfferSent => exact negoInv_lift t _ ih (by rw [runNego_append, hp]; rfl)
      | Connected => exact negoInv_lift t _ ih (by rw [runNego_append, hp]; rfl)
      | Failed => exact negoInv_lift t _ ih (by rw [runNego_append, hp]; rfl)
    | discA =>
      cases st with
      | Connected => exact negoInv_lift t _ ih (by rw [runNego_append, hp]; rfl)
      | Idle => exact negoInv_failed _ (by rw [runNego_append, hp]; rfl)
      | OfferSent => exact negoInv_failed _ (by rw [runNego_append, hp]; rfl)
      | AnswerSent => exact negoInv_failed _ (by rw [runNego_append, hp]; rfl)
      | Failed => exact negoInv_failed _ (by rw [runNego_append, hp]; rfl)
    | discB =>
      cases st with
      | Connected => exact negoInv_lift t _ ih (by rw [runNego_append, hp]; rfl)
      | Idle => exact negoInv_failed _ (by rw [runNego_append, hp]; rfl)
      | OfferSent => exact negoInv_failed _ (by rw [runNego_append, hp]; rfl)
      | AnswerSent => exact negoInv_failed _ (by rw [runNego_append, hp]; rfl)
      | Failed => exact negoInv_failed _ (by rw [runNego_append, hp]; rfl)

lemma runNego_cands_only : ∀ t : List SigEvent,
    (∀ e ∈ t, e = .candAB ∨ e = .candBA) → runNego t = ⟨.Idle, 0, 0⟩ := by
  have aux : ∀ t : List SigEvent, (∀ e ∈ t, e = SigEvent.candAB ∨ e = SigEvent.candBA) →
      t.foldl stepNego ⟨.Idle, 0, 0⟩ = ⟨.Idle, 0, 0⟩ := by
    intro t
    induction t with
    | nil => intro _; rfl
    | cons e t ih =>
      intro h
      have he := h e (by simp)
      have hstep : stepNego ⟨.Idle, 0, 0⟩ e = ⟨.Idle, 0, 0⟩ := by
        rcases he with rfl | rfl <;> rfl
      rw [List.foldl_cons, hstep]
      exact ih (fun x hx => h x (by simp [hx]))
  exact fun t h => aux t h

/-- C6: the pair negotiation machine reaches Connected only after an offer,
then an answer, then at least one relayed ICE candidate in each direction,
in that causal order (the offer precedes the answer, which precedes the
candidates that count toward the exchange); and Connected is unreachable
from any trace consisting of candidates alone. -/
theorem connected_requires_causal_order :
    (∀ t : List SigEvent, (runNego t).st = .Connected → ConnectedCausal t)
    ∧ (∀ t : List SigEvent, (∀ e ∈ t, e = .candAB ∨ e = .candBA) →
        (runNego t).st ≠ .Connected) := by
  constructor
  · intro t h
    exact (negoInv t).2.2.2 h
  · intro t h hcon
    rw [runNego_cands_only t h] at hcon
    exact absurd hcon (by decide)

/-- Witness for C6: the trace offer, answer, candidate each way reaches
Connected and therefore exhibits the causal order, while a candidates-only
trace does not connect. -/
theorem connected_requires_causal_order_witness :
    ConnectedCausal [.offer, .answer, .candAB, .candBA]
    ∧ (runNego [.candAB, .candBA]).st ≠ .Connected :=
  ⟨connected_requires_causal_order.1 [.offer, .answer, .candAB, .candBA] (by decide),
   connected_requires_causal_order.2 [.candAB, .candBA] (by decide)⟩

end WChat
